import Mathlib

/-!
Verification development for the AgeCheck AgeGate browser client.

Shallow embedding of:
- `src/internal/policy.js` (session normalization, include-list sanitization,
  backend URL origin policy),
- `src/internal/token.js` (bounded base64url / hex / UTF-8 decoding pipeline),
- `src/agegate.js` (`launchAgeGate` handshake controller: popup, message
  handler, terminal transitions, timers),
- the test helpers `bytesToB64url` / `utf8ToHex` from `tests/token.test.js`.

JavaScript dynamic values are modelled by the inductive type `JsVal`; the
browser's base64 (`atob`) and UTF-8 (`Buffer`/`TextDecoder`, lossy) codecs,
which the source delegates to, are implemented here following their standard
(WHATWG / RFC 3629) semantics.  gzip compression (the bundled `pako` library,
external to this repository) is kept abstract: theorems that need it quantify
over an arbitrary compress/decompress pair linked by an inversion hypothesis.
-/

/-- Model of a JavaScript runtime value, with exactly the distinctions the
source code observes via `typeof` / `Array.isArray` / truthiness.  Non-null
non-array objects are opaque references identified by a number. -/
inductive JsVal where
  | str (s : String)
  | num (n : Int)
  | bool (b : Bool)
  | null
  | undefinedVal
  | arr (xs : List JsVal)
  | obj (id : Nat)

namespace JsVal

/-- `typeof v === 'string'` -/
def isStr : JsVal → Bool
  | .str _ => true
  | _ => false

/-- `Array.isArray(v)` -/
def isArr : JsVal → Bool
  | .arr _ => true
  | _ => false

/-- `v && typeof v === 'object'` — a truthy object: a non-null object
(arrays included). -/
def isTruthyObject : JsVal → Bool
  | .obj _ => true
  | .arr _ => true
  | _ => false

end JsVal

/-! ## PolicyEngine (`src/internal/policy.js`) -/

/-- Default limits from `policy.js` `DEFAULT_LIMITS`. -/
def maxSessionLen : Nat := 64
/-- Default limits from `policy.js` `DEFAULT_LIMITS`. -/
def maxIncludeItems : Nat := 8
/-- Default limits from `policy.js` `DEFAULT_LIMITS`. -/
def maxIncludeItemLen : Nat := 32

/-- `c` is an upper- or lower-case hexadecimal digit (`[0-9a-fA-F]`). -/
def isHexDigitChar (c : Char) : Bool :=
  (('0' ≤ c) && (c ≤ '9')) || (('a' ≤ c) && (c ≤ 'f')) || (('A' ≤ c) && (c ≤ 'F'))

/-- Character admissible at position `i` of a UUID, following `UUID_RE` in
`policy.js`: dashes at 8/13/18/23, version nibble `[1-5]` at 14, variant
nibble `[89ab]` (case-insensitive) at 19, hex everywhere else. -/
def uuidCharOk (i : Nat) (c : Char) : Bool :=
  if i == 8 || i == 13 || i == 18 || i == 23 then c == '-'
  else if i == 14 then ('1' ≤ c) && (c ≤ '5')
  else if i == 19 then c == '8' || c == '9' || c == 'a' || c == 'b' || c == 'A' || c == 'B'
  else isHexDigitChar c

/-- `isUuid` from `policy.js`: the anchored case-insensitive RFC4122 regex
`UUID_RE`, as a positional predicate over the 36 characters. -/
def isUuid (s : String) : Bool :=
  s.data.length == 36 && s.data.enum.all (fun p => uuidCharOk p.1 p.2)

/-- Whitespace removed by JavaScript `String.prototype.trim` (the inputs
exercised by the claims use ASCII whitespace only). -/
def isJsSpace (c : Char) : Bool :=
  c == ' ' || c == '\t' || c == '\n' || c == '\r' || c == '\x0c' || c == '\x0b'

/-- JavaScript `String.prototype.trim`: strip leading and trailing whitespace. -/
def jsTrim (s : String) : String :=
  ⟨((s.data.dropWhile isJsSpace).reverse.dropWhile isJsSpace).reverse⟩

/-- Result of `normalizeSession`: either the (trimmed) input was kept, or the
function fell through to `randomUuid()` (a fresh cryptographically random v4
UUID, modelled as the opaque outcome `fresh` since it is nondeterministic). -/
inductive SessionResult where
  | kept (s : String)
  | fresh
  deriving Repr, DecidableEq

/-- `normalizeSession` from `policy.js` (with the default limits): non-string,
empty-after-trim, over-long, or non-UUID inputs yield a fresh random UUID;
otherwise the trimmed input is returned. -/
def normalizeSession (v : JsVal) : SessionResult :=
  match v with
  | .str v0 =>
    let s := jsTrim v0
    if s.length = 0 ∨ s.length > maxSessionLen then .fresh
    else if !isUuid s then .fresh
    else .kept s
  | _ => .fresh

/-- The body of the `sanitizeInclude` loop from `policy.js`: fold over the
array items, accumulating accepted entries in `out`, stopping once
`maxIncludeItems` entries are accepted. -/
def sanitizeLoop (out : List String) : List JsVal → List String
  | [] => out
  | item :: rest =>
    if out.length ≥ maxIncludeItems then out
    else match item with
      | .str s0 =>
        let s := jsTrim s0
        if s.length = 0 ∨ s.length > maxIncludeItemLen then sanitizeLoop out rest
        else if out.contains s then sanitizeLoop out rest
        else sanitizeLoop (out ++ [s]) rest
      | _ => sanitizeLoop out rest

/-- `sanitizeInclude` from `policy.js` (default limits): `undefined` for
non-arrays and when nothing survives; `none` models `undefined`. -/
def sanitizeInclude (v : JsVal) : Option (List String) :=
  match v with
  | .arr items =>
    let out := sanitizeLoop [] items
    if out.length > 0 then some out else none
  | _ => none

/-- First-occurrence deduplication, keeping insertion order. -/
def dedupFirst (acc : List String) : List String → List String
  | [] => []
  | x :: xs => if acc.contains x then dedupFirst acc xs else x :: dedupFirst (acc ++ [x]) xs

/-- The per-item survivor function of the include-list sanitization: string
entries, trimmed, with empty and over-length ones dropped. -/
def includeSurvivor (it : JsVal) : Option String :=
  match it with
  | .str s0 =>
    let s := jsTrim s0
    if s.length = 0 ∨ s.length > maxIncludeItemLen then none else some s
  | _ => none

/-- Specification-side restatement of the include-list sanitization, following
the spec's words: keep the string entries, trim them, drop empty and
over-length ones, remove duplicates preserving insertion order, keep at most
`maxIncludeItems` entries, and return `undefined` when nothing survives. -/
def sanitizeIncludeSpec (v : JsVal) : Option (List String) :=
  match v with
  | .arr items =>
    let out := (dedupFirst [] (items.filterMap includeSurvivor)).take maxIncludeItems
    if out.isEmpty then none else some out
  | _ => none

/-- The relevant fields of a WHATWG `URL` object, as produced by the browser's
`new URL(raw, base)` resolution: its origin, its scheme (`protocol`, with the
trailing colon, e.g. `"https:"`), and its serialization (`toString()`).
URL parsing/resolution itself is the host environment's; the policy code's
inputs are modelled as already-resolved values, with `Option` for the throw
on unparsable input. -/
structure ResolvedUrl where
  origin : String
  protocol : String
  href : String
  deriving Repr, DecidableEq

/-- `resolveBackendVerifyUrl` from `policy.js`.

`parsedRaw` models `new URL(raw, pageHref)` (`none` = the constructor threw);
`pageProtocol` models `new URL(pageHref).protocol`, well-defined whenever
`parsedRaw` resolved against the base `pageHref`; `allowedOriginEntries`
models, entry by entry, `typeof o === 'string' ? (new URL(o)).origin : -`
with `none` for non-string or unparsable entries. -/
def resolveBackendVerifyUrl (pageHref pageOrigin : String)
    (allowCrossOrigin : Bool) (allowedOriginEntries : List (Option String))
    (parsedRaw : Option ResolvedUrl) (pageProtocol : String) :
    Except String String :=
  if pageHref.length == 0 then .error "pageHref required"
  else if pageOrigin.length == 0 then .error "pageOrigin required"
  else match parsedRaw with
    | none => .error "backendVerifyUrl must be a valid URL or relative path"
    | some u =>
      let sameOrigin := u.origin == pageOrigin
      if !sameOrigin && !allowCrossOrigin then
        .error "backendVerifyUrl must be same-origin by default; set backendVerifyAllowCrossOrigin=true and backendVerifyAllowedOrigins=[...] to enable cross-origin"
      else if !sameOrigin && !(allowedOriginEntries.any (fun e => e == some u.origin)) then
        .error "backendVerifyUrl origin not in backendVerifyAllowedOrigins"
      else if !sameOrigin && u.protocol != "https:" then
        .error "backendVerifyUrl must be https"
      else if sameOrigin && u.protocol != "https:" && u.protocol != pageProtocol then
        .error "backendVerifyUrl protocol mismatch"
      else .ok u.href

/-- Decidable equality for `Except`, used to evaluate codec results on
concrete inputs. -/
instance {ε α : Type} [DecidableEq ε] [DecidableEq α] : DecidableEq (Except ε α) :=
  fun a b =>
    match a, b with
    | .ok x, .ok y =>
      if h : x = y then isTrue (by rw [h]) else isFalse (by intro hc; cases hc; exact h rfl)
    | .error x, .error y =>
      if h : x = y then isTrue (by rw [h]) else isFalse (by intro hc; cases hc; exact h rfl)
    | .ok _, .error _ => isFalse (by intro hc; cases hc)
    | .error _, .ok _ => isFalse (by intro hc; cases hc)

/-! ## TokenCodec (`src/internal/token.js`) -/

/-- Default limits from `token.js` `DEFAULT_LIMITS`. -/
def maxTokenB64urlChars : Nat := 64000
/-- Default limits from `token.js` `DEFAULT_LIMITS`. -/
def maxGzipBytes : Nat := 64000
/-- Default limits from `token.js` `DEFAULT_LIMITS`. -/
def maxInflatedChars : Nat := 512000

/-- The standard base64 alphabet, index order. -/
def b64Tbl : List Char :=
  "ABCDEFGHIJKLMNOPQRSTUVWXYZabcdefghijklmnopqrstuvwxyz0123456789+/".data

/-- Character at index `i` of the base64 alphabet. -/
def b64Chr (i : Nat) : Char := b64Tbl.getD i 'A'

/-- Index of `c` in the base64 alphabet, `none` if not in the alphabet. -/
def b64Index (c : Char) : Option Nat :=
  (b64Tbl.enum.find? (fun p => p.2 == c)).map (fun p => p.1)

/-- ASCII whitespace stripped by forgiving-base64 decoding (`atob`). -/
def isB64Ws (c : Char) : Bool :=
  c == ' ' || c == '\t' || c == '\n' || c == '\x0c' || c == '\r'

/-- Decode a list of 6-bit groups (trailing `=` already stripped, length
`% 4 ≠ 1`) into bytes, per forgiving-base64: a trailing group of 2 gives one
byte, of 3 gives two bytes, leftover low bits discarded. -/
def b64Groups : List Nat → List Nat
  | i0 :: i1 :: i2 :: i3 :: rest =>
    (i0 * 4 + i1 / 16) :: ((i1 % 16) * 16 + i2 / 4) :: ((i2 % 4) * 64 + i3) ::
      b64Groups rest
  | [i0, i1] => [i0 * 4 + i1 / 16]
  | [i0, i1, i2] => [i0 * 4 + i1 / 16, (i1 % 16) * 16 + i2 / 4]
  | _ => []

/-- Look up each character in the base64 alphabet, failing on the first
character outside it. -/
def b64Indices : List Char → Option (List Nat)
  | [] => some []
  | c :: cs => do
    let i ← b64Index c
    let rest ← b64Indices cs
    pure (i :: rest)

/-- Drop up to two trailing `'='` characters. -/
def dropTrailingPad (cs : List Char) : List Char :=
  (cs.reverse.drop 2).reverse ++ ((cs.reverse.take 2).dropWhile (fun c => c == '=')).reverse

/-- The host environment's `atob` (WHATWG forgiving-base64 decode): strip
ASCII whitespace; when the length is a multiple of 4, remove up to two
trailing `=`; fail on a length remainder of 1, on any remaining non-alphabet
character; decode the 6-bit groups. -/
def atob (s : String) : Option (List Nat) := do
  let t := s.data.filter (fun c => !isB64Ws c)
  let t := if t.length % 4 == 0 then dropTrailingPad t else t
  if t.length % 4 == 1 then none
  else
    let idx ← b64Indices t
    pure (b64Groups idx)

/-- The base64url→base64 character translation from `b64urlToBytes`:
each `'-'` becomes `'+'` and each `'_'` becomes a slash. -/
def b64urlBackChar (c : Char) : Char :=
  if c == '-' then '+' else if c == '_' then '/' else c

/-- `b64urlToBytes`'s two `replace` calls, applied character-wise. -/
def b64urlTranslate (s : String) : String :=
  ⟨s.data.map b64urlBackChar⟩

/-- The `=` padding re-added by `b64urlToBytes` according to the length
remainder mod 4 (remainder 1 is rejected before this point). -/
def b64AddPad (s : String) : String :=
  let pad := s.length % 4
  if pad == 2 then s ++ "==" else if pad == 3 then s ++ "=" else s

/-- `b64urlToBytes` from `token.js`: validation, size ceilings, base64url →
base64 translation and padding, then the platform base64 decoder (`atob`,
modelled above).  `maxChars`/`maxBytes` are the call-time limits
(`maxTokenB64urlChars` / `maxGzipBytes` by default). -/
def b64urlToBytes (v : JsVal) (maxChars maxBytes : Nat) : Except String (List Nat) :=
  match v with
  | .str b64url =>
    if b64url.length == 0 then .error "token must be non-empty"
    else if b64url.length > maxChars then .error "token too large"
    else
      let b64 := b64urlTranslate b64url
      if b64.length % 4 == 1 then .error "invalid base64url length"
      else
        match atob (b64AddPad b64) with
        | none => .error "invalid base64url: decode failed"
        | some out =>
          if out.length > maxBytes then .error "compressed token too large"
          else .ok out
  | _ => .error "token must be a string"

/-- Hex digit character for `n < 16`, lower case (as produced by JavaScript's
`Number.prototype.toString(16)` / `Buffer.toString('hex')`). -/
def hexDigit (n : Nat) : Char := "0123456789abcdef".data.getD n '0'

/-- Numeric value of a hex digit character (inputs are validated beforehand). -/
def hexVal (c : Char) : Nat :=
  if '0' ≤ c && c ≤ '9' then c.toNat - '0'.toNat
  else if 'a' ≤ c && c ≤ 'f' then c.toNat - 'a'.toNat + 10
  else if 'A' ≤ c && c ≤ 'F' then c.toNat - 'A'.toNat + 10
  else 0

/-- Decode hex character pairs into bytes (`parseInt(hex.slice(i,i+2),16)`
per iteration); the input is validated to have even length beforehand. -/
def hexPairsToBytes : List Char → List Nat
  | c1 :: c2 :: rest => (hexVal c1 * 16 + hexVal c2) :: hexPairsToBytes rest
  | _ => []

/-- UTF-8 encoding of one Unicode scalar value (RFC 3629), as performed by
`Buffer.from(str,'utf8')`. -/
def utf8EncodeChar (c : Char) : List Nat :=
  let n := c.toNat
  if n < 0x80 then [n]
  else if n < 0x800 then [0xC0 + n / 64, 0x80 + n % 64]
  else if n < 0x10000 then [0xE0 + n / 4096, 0x80 + (n / 64) % 64, 0x80 + n % 64]
  else [0xF0 + n / 262144, 0x80 + (n / 4096) % 64, 0x80 + (n / 64) % 64, 0x80 + n % 64]

/-- UTF-8 encoding of a string (`Buffer.from(str,'utf8')`), as a byte list. -/
def utf8Encode (s : String) : List Nat := s.data.flatMap utf8EncodeChar

/-- `0x80 ≤ b < 0xC0`: a UTF-8 continuation byte. -/
def isCont (b : Nat) : Bool := 0x80 ≤ b && b < 0xC0

/-- One step of lossy UTF-8 decoding: given a lead byte and the remaining
bytes, produce the decoded character (U+FFFD on malformed input) and the
number of continuation bytes consumed. -/
def utf8Step (b : Nat) (rest : List Nat) : Char × Nat :=
  if b < 0x80 then (Char.ofNat b, 0)
  else if b < 0xC0 then ('�', 0)
  else if b < 0xE0 then
    match rest with
    | b1 :: _ =>
      if isCont b1 then (Char.ofNat ((b - 0xC0) * 64 + (b1 - 0x80)), 1) else ('�', 0)
    | [] => ('�', 0)
  else if b < 0xF0 then
    match rest with
    | b1 :: b2 :: _ =>
      if isCont b1 && isCont b2 then
        (Char.ofNat ((b - 0xE0) * 4096 + (b1 - 0x80) * 64 + (b2 - 0x80)), 2)
      else ('�', 0)
    | _ => ('�', 0)
  else if b < 0xF8 then
    match rest with
    | b1 :: b2 :: b3 :: _ =>
      if isCont b1 && isCont b2 && isCont b3 then
        (Char.ofNat ((b - 0xF0) * 262144 + (b1 - 0x80) * 4096 + (b2 - 0x80) * 64 + (b3 - 0x80)), 3)
      else ('�', 0)
    | _ => ('�', 0)
  else ('�', 0)

/-- Fuel-bounded worker for `utf8DecodeLossy`; the fuel (an upper bound on
the number of characters produced, instantiated with the byte count) makes
the recursion structural. -/
def utf8DecodeLossyAux : Nat → List Nat → List Char
  | 0, _ => []
  | _, [] => []
  | fuel + 1, b :: rest =>
    let st := utf8Step b rest
    st.1 :: utf8DecodeLossyAux fuel (rest.drop st.2)

/-- Lossy UTF-8 decoding as performed by `Buffer.toString('utf8')` /
`TextDecoder` (non-fatal): malformed sequences produce U+FFFD and decoding
resumes.  Only well-formed inputs are exercised by the theorems below. -/
def utf8DecodeLossy (l : List Nat) : List Char := utf8DecodeLossyAux l.length l

/-- `hexToUtf8String` from `token.js` (with call-time inflated-character
limit, `maxInflatedChars` by default): validation, then hex-pair decoding and
lossy UTF-8 decoding of the bytes. -/
def hexToUtf8String (hex : String) (maxInflated : Nat) : Except String String :=
  if hex.length == 0 then .error "hex must be non-empty"
  else if hex.length % 2 != 0 then .error "invalid hex length"
  else if !hex.data.all isHexDigitChar then .error "invalid hex characters"
  else if hex.length > maxInflated then .error "inflated token too large"
  else .ok ⟨utf8DecodeLossy (hexPairsToBytes hex.data)⟩

/-! ### Encoding helpers (`tests/token.test.js`) -/

/-- Standard padded base64 encoding of a byte list (`Buffer.toString('base64')`),
producing 4 characters per 3-byte chunk with `=` padding. -/
def b64EncodeChunks : List Nat → List Char
  | [] => []
  | [b0] => [b64Chr (b0 / 4), b64Chr (b0 % 4 * 16), '=', '=']
  | [b0, b1] => [b64Chr (b0 / 4), b64Chr (b0 % 4 * 16 + b1 / 16), b64Chr (b1 % 16 * 4), '=']
  | b0 :: b1 :: b2 :: rest =>
    b64Chr (b0 / 4) :: b64Chr (b0 % 4 * 16 + b1 / 16) :: b64Chr (b1 % 16 * 4 + b2 / 64) ::
      b64Chr (b2 % 64) :: b64EncodeChunks rest

/-- The base64→base64url character translation from `bytesToB64url`:
each `'+'` becomes `'-'` and each slash becomes `'_'`. -/
def b64urlFwdChar (c : Char) : Char :=
  if c == '+' then '-' else if c == '_' then c else if c == '/' then '_' else c

/-- Strip all trailing `=` (`replace(/=+$/g,'')`). -/
def stripTrailingEq (cs : List Char) : List Char :=
  (cs.reverse.dropWhile (fun c => c == '=')).reverse

/-- `bytesToB64url` from `tests/token.test.js`: padded base64 of the bytes,
`+`/`/` translated to `-`/`_`, trailing padding stripped. -/
def bytesToB64url (bytes : List Nat) : String :=
  ⟨stripTrailingEq ((b64EncodeChunks bytes).map b64urlFwdChar)⟩

/-- `utf8ToHex` from `tests/token.test.js`: `Buffer.from(str,'utf8').toString('hex')`. -/
def utf8ToHex (s : String) : String :=
  ⟨(utf8Encode s).flatMap (fun b => [hexDigit (b / 16), hexDigit (b % 16)])⟩

/-! ## HandshakeController (`src/agegate.js`, `launchAgeGate`) -/

/-- The fixed issuer origin `CHILD_ORIGIN` from `agegate.js`. -/
def CHILD_ORIGIN : String := "https://agecheck.me"

/-- The `data` of an incoming `message` event, as far as the handler
inspects it: either not a truthy object (rejected by
`!e.data || typeof e.data !== 'object'`), or an object from which the
`token`, `session` and `authenticationResponse` properties are read. -/
inductive MsgData where
  | nonObj (v : JsVal)
  | objData (token msgSession authResp : JsVal)

/-- An incoming `message` event: origin, source window reference
(`none` when the source is not a window or is a different window than any
modelled one), and data. -/
structure MessageEvent where
  origin : String
  source : Option Nat
  data : MsgData

/-- Scheduler events delivered to one `launchAgeGate` invocation after the
popup was opened: a `message` event, the one-shot timeout firing, a liveness
poll tick (carrying whether `popup.closed` was observed), and the resumption
of the awaited backend verification (`verifyWithBackend` resolving with a
result or rejecting with an error message). -/
inductive GateEvent where
  | message (e : MessageEvent)
  | timeoutFire
  | pollTick (popupClosed : Bool)
  | backendDone (res : Except String JsVal)

/-- The per-launch configuration, after `launchAgeGate` destructured and
normalized it: the active session (`agegateway_session`), the sanitized
include list, whether a backend verification URL was configured
(`typeof backendVerifyUrl === 'string' && backendVerifyUrl.length > 0`),
whether a timeout was armed (`typeof timeoutMs === 'number'`, finite, `> 0`),
the opened popup's window reference, and the gzip decompressor
(`pako.ungzip(gz, to: string)`, `none` modelling a throw). -/
structure LaunchCfg where
  agegatewaySession : String
  includeList : Option (List String)
  hasBackend : Bool
  timeoutArmed : Bool
  popupRef : Nat
  ungzip : List Nat → Option String

/-- The mutable per-launch controller state: the closure variables `done` and
`processing`, whether the `message` listener is attached, whether the poll
interval and timeout timer are still armed, whether `ac.abort()` ran, whether
`popup.close()` was requested, and the suspension state of the handler at the
`await verifyWithBackend` point (the pending jwt/payload it will finish
with). -/
structure GateSt where
  done : Bool
  processing : Bool
  listenerAttached : Bool
  pollActive : Bool
  timeoutActive : Bool
  aborted : Bool
  popupCloseRequested : Bool
  awaitingBackend : Bool
  pendingJwt : String
  pendingPayload : List (String × JsVal)

/-- A callback invocation observable by the caller: `onSuccess(jwt, payload,
backendResult)` or `onFailure(err)` (payloads as ordered JavaScript-object
key/value lists). -/
inductive CbCall where
  | success (jwt : String) (payload : List (String × JsVal)) (backendResult : JsVal)
  | failure (msg : String)

/-- `cleanup` from `launchAgeGate`: remove the message listener, clear the
poll interval and the timeout timer. -/
def cleanup (st : GateSt) : GateSt :=
  { st with listenerAttached := false, pollActive := false, timeoutActive := false }

/-- `finishFailure` from `launchAgeGate`: idempotence guard on `done`, then
abort, cleanup, close the popup, and invoke the failure callback once. -/
def finishFailure (st : GateSt) (msg : String) : GateSt × List CbCall :=
  if st.done then (st, [])
  else
    ({ cleanup st with done := true, aborted := true, popupCloseRequested := true },
     [.failure msg])

/-- `finishSuccess` from `launchAgeGate`: idempotence guard on `done`, then
abort, cleanup, close the popup, and invoke the success callback once. -/
def finishSuccess (st : GateSt) (jwt : String) (payload : List (String × JsVal))
    (backendResult : JsVal) : GateSt × List CbCall :=
  if st.done then (st, [])
  else
    ({ cleanup st with done := true, aborted := true, popupCloseRequested := true },
     [.success jwt payload backendResult])

/-- The guard sequence of the message handler in `launchAgeGate`: the
early-return conditions merged into one acceptance test.  The handler
proceeds past its early returns exactly when this is `true`. -/
def handlerAccepts (cfg : LaunchCfg) (st : GateSt) (e : MessageEvent) : Bool :=
  !st.done && !st.processing &&
  e.origin == CHILD_ORIGIN &&
  e.source == some cfg.popupRef &&
  match e.data with
  | .nonObj _ => false
  | .objData token msgSession authResp =>
    (match msgSession with
     | .str s => s == cfg.agegatewaySession
     | _ => false) &&
    (match token with
     | .str s => s.length != 0
     | _ => false) &&
    authResp.isTruthyObject

/-- The token field of an accepted message (the guard ensures it is a
non-empty string). -/
def msgToken (e : MessageEvent) : String :=
  match e.data with
  | .objData (.str s) _ _ => s
  | _ => ""

/-- The `authenticationResponse` field of a message. -/
def msgAuthResp (e : MessageEvent) : JsVal :=
  match e.data with
  | .objData _ _ a => a
  | .nonObj _ => .undefinedVal

/-- The result payload object literal assembled by the handler after a
successful decode: `include`, `agegateway_session`, `authenticationResponse`,
in that key order. -/
def mkPayload (includeList : Option (List String)) (agegatewaySession : String)
    (authResp : JsVal) : List (String × JsVal) :=
  [("include", match includeList with
     | some l => .arr (l.map .str)
     | none => .undefinedVal),
   ("agegateway_session", .str agegatewaySession),
   ("authenticationResponse", authResp)]

/-- The JSON body of the backend verification POST from `verifyWithBackend`:
`JSON.stringify` of the object literal spreading the payload after `jwt`. -/
def backendBody (jwt : String) (payload : List (String × JsVal)) :
    List (String × JsVal) :=
  ("jwt", .str jwt) :: payload

/-- The decode sequence the handler runs on an accepted token:
`b64urlToBytes` (default limits), `pako.ungzip(gz, to: string)` (throw
modelled by `none`; a non-string result would also be rejected), then
`hexToUtf8String` (default limit) and the final non-empty-jwt check. -/
def decodeTokenPipeline (ungzip : List Nat → Option String) (token : String) :
    Except String String := do
  let gz ← b64urlToBytes (.str token) maxTokenB64urlChars maxGzipBytes
  match ungzip gz with
  | none => .error "invalid token payload"
  | some hex => do
    let jwt ← hexToUtf8String hex maxInflatedChars
    if jwt.length == 0 then .error "invalid jwt" else pure jwt

/-- The `message` handler from `launchAgeGate`.  On rejection it returns with
no state change and no callback.  On acceptance it runs the decode pipeline:
a decode failure reaches `finishFailure` (the `finally` clause resets
`processing`); with no backend configured, `finishSuccess` fires immediately
with a `null` backend result; with a backend configured the handler suspends
at `await verifyWithBackend` with `processing` still set. -/
def handler (cfg : LaunchCfg) (st : GateSt) (e : MessageEvent) : GateSt × List CbCall :=
  if handlerAccepts cfg st e then
    match decodeTokenPipeline cfg.ungzip (msgToken e) with
    | .error msg =>
      let r := finishFailure { st with processing := true } msg
      ({ r.1 with processing := false }, r.2)
    | .ok jwt =>
      let payload := mkPayload cfg.includeList cfg.agegatewaySession (msgAuthResp e)
      if cfg.hasBackend then
        ({ st with processing := true, awaitingBackend := true,
                   pendingJwt := jwt, pendingPayload := payload }, [])
      else
        let r := finishSuccess { st with processing := true } jwt payload .null
        ({ r.1 with processing := false }, r.2)
  else (st, [])

/-- One scheduler step of the launched controller.  A `message` event reaches
the handler only while the listener is attached; the timeout callback only
fires while armed; a poll tick only while the interval is live (observing a
closed popup aborts and cleans up with no callback — the documented
quiet-close path); the backend await resumes only while a request is in
flight, and lands in `finishSuccess`/`finishFailure` followed by the
`finally` reset of `processing`. -/
def step (cfg : LaunchCfg) (st : GateSt) (ev : GateEvent) : GateSt × List CbCall :=
  match ev with
  | .message e => if st.listenerAttached then handler cfg st e else (st, [])
  | .timeoutFire =>
    if st.timeoutActive then finishFailure st "Timed out waiting for age verification"
    else (st, [])
  | .pollTick popupClosed =>
    if st.pollActive && popupClosed then ({ cleanup st with aborted := true }, [])
    else (st, [])
  | .backendDone res =>
    if st.awaitingBackend then
      let st0 := { st with awaitingBackend := false }
      let r :=
        match res with
        | .ok backendResult => finishSuccess st0 st.pendingJwt st.pendingPayload backendResult
        | .error msg => finishFailure st0 msg
      ({ r.1 with processing := false }, r.2)
    else (st, [])

/-- Environment facts consulted synchronously by `launchAgeGate`: whether the
page carries the `referrer=no-referrer` meta tag, and whether `window.open`
returned a window (popup not blocked). -/
structure LaunchEnv where
  noReferrerMeta : Bool
  popupOpens : Bool

/-- The caller-controlled launch options that decide the synchronous part of
`launchAgeGate` (defaults: no timeout, `requireNoReferrer = false`,
`allowFullPageFallback = true`). -/
structure LaunchOpts where
  requireNoReferrer : Bool
  allowFullPageFallback : Bool

/-- Outcome of the synchronous part of `launchAgeGate`: an early failure
callback, a full-page navigation to the verify URL (no callbacks, ever), or
a running controller in its initial state. -/
inductive LaunchOutcome where
  | failedEarly
  | navigatedAway
  | running (st : GateSt)

/-- The initial controller state right after `launchAgeGate` attached the
listener, started the poll interval and (optionally) armed the timeout. -/
def initSt (timeoutArmed : Bool) : GateSt :=
  { done := false, processing := false, listenerAttached := true,
    pollActive := true, timeoutActive := timeoutArmed, aborted := false,
    popupCloseRequested := false, awaitingBackend := false,
    pendingJwt := "", pendingPayload := [] }

/-- The synchronous part of `launchAgeGate`: referrer precondition, popup
open attempt, full-page fallback, and initial state construction. -/
def launch (env : LaunchEnv) (opts : LaunchOpts) (timeoutArmed : Bool) :
    LaunchOutcome × List CbCall :=
  if !env.noReferrerMeta && opts.requireNoReferrer then
    (.failedEarly, [.failure "Missing required meta referrer=no-referrer"])
  else if !env.popupOpens then
    if opts.allowFullPageFallback then (.navigatedAway, [])
    else (.failedEarly, [.failure "Popup blocked and fallback disabled"])
  else (.running (initSt timeoutArmed), [])

/-- Run the controller from a state over a list of scheduler events,
collecting all callback invocations. -/
def runFrom (cfg : LaunchCfg) (st : GateSt) : List GateEvent → GateSt × List CbCall
  | [] => (st, [])
  | ev :: evs =>
    let r := step cfg st ev
    let rest := runFrom cfg r.1 evs
    (rest.1, r.2 ++ rest.2)

/-- A complete execution of one `launchAgeGate` call: the synchronous launch
part followed, when a controller is running, by an arbitrary finite schedule
of events.  Returns every callback invocation of the execution. -/
def runLaunch (env : LaunchEnv) (opts : LaunchOpts) (cfg : LaunchCfg)
    (evs : List GateEvent) : List CbCall :=
  match launch env opts cfg.timeoutArmed with
  | (.running st, cbs) => cbs ++ (runFrom cfg st evs).2
  | (_, cbs) => cbs

/-- The three decode stages named by the round-trip property: `b64urlToBytes`
(default limits), gzip decompression-to-string, `hexToUtf8String` (default
limit).  This is the handler's pipeline without its final non-empty-jwt
check. -/
def decodeStages (ungzip : List Nat → Option String) (token : String) :
    Except String String := do
  let gz ← b64urlToBytes (.str token) maxTokenB64urlChars maxGzipBytes
  match ungzip gz with
  | none => .error "invalid token payload"
  | some hex => hexToUtf8String hex maxInflatedChars

/-- A concrete executable compressor used to instantiate the abstract
gzip parameter of the round-trip theorems: a two-byte header followed by the
UTF-8 bytes of the input (it shares with real gzip the properties the
theorems assume: invertible, nonempty output). -/
def gzipModel (s : String) : List Nat := 31 :: 139 :: utf8Encode s

/-- The matching decompressor for `gzipModel` (`none` on a missing header,
modelling a `pako.ungzip` throw). -/
def ungzipModel (bs : List Nat) : Option String :=
  match bs with
  | 31 :: 139 :: rest => some ⟨utf8DecodeLossy rest⟩
  | _ => none

/-- The unpadded 6-bit groups of the standard base64 encoding of a byte
list (the indices whose alphabet characters `b64EncodeChunks` emits before
padding). -/
def b64IdxsCore : List Nat → List Nat
  | [] => []
  | [b0] => [b0 / 4, b0 % 4 * 16]
  | [b0, b1] => [b0 / 4, b0 % 4 * 16 + b1 / 16, b1 % 16 * 4]
  | b0 :: b1 :: b2 :: rest =>
    b0 / 4 :: (b0 % 4 * 16 + b1 / 16) :: (b1 % 16 * 4 + b2 / 64) :: b2 % 64 :: b64IdxsCore rest

/-- The observable cleanup facts of a terminal state: `done` set, message
listener detached, poll and timeout timers cleared, backend request aborted,
child context close requested. -/
def terminalFacts (st : GateSt) : Prop :=
  st.done = true ∧ st.listenerAttached = false ∧ st.pollActive = false ∧
  st.timeoutActive = false ∧ st.aborted = true ∧ st.popupCloseRequested = true

/-- The message-acceptance conditions exactly as the claim states them: not
terminated, not mid-processing, issuer origin, popup source, payload a
non-null object whose `token` is a string (any string), whose `session`
equals the active session exactly, and whose `authenticationResponse` is a
non-null object. -/
def specAcceptConditions (cfg : LaunchCfg) (st : GateSt) (e : MessageEvent) : Prop :=
  st.done = false ∧ st.processing = false ∧ e.origin = CHILD_ORIGIN ∧
  e.source = some cfg.popupRef ∧
  ∃ token msgSession authResp, e.data = .objData token msgSession authResp ∧
    token.isStr = true ∧ msgSession = .str cfg.agegatewaySession ∧
    authResp.isTruthyObject = true

/-- The message-acceptance conditions with the token required to be a
non-empty string (matching the handler's `token.length === 0` rejection). -/
def acceptConditions (cfg : LaunchCfg) (st : GateSt) (e : MessageEvent) : Prop :=
  st.done = false ∧ st.processing = false ∧ e.origin = CHILD_ORIGIN ∧
  e.source = some cfg.popupRef ∧
  ∃ ts msgSession authResp, e.data = .objData (.str ts) msgSession authResp ∧
    ts ≠ "" ∧ msgSession = .str cfg.agegatewaySession ∧
    authResp.isTruthyObject = true

/-! ## Theorems -/

/-- A valid UUID has exactly 36 characters. -/
theorem isUuid_length {s : String} (h : isUuid s = true) : s.length = 36 := by
  unfold isUuid at h
  have h1 := (Bool.and_eq_true _ _).mp h
  have h2 : s.data.length = 36 := by simpa using h1.1
  exact h2

/-- C9: `normalizeSession` trims its input before validating: every string
input whose trimmed form is a valid UUID of length at most 64 is returned
trimmed — neither unchanged (with its whitespace) nor replaced by a fresh
random UUID. -/
theorem normalizeSession_keeps_trimmed_uuid (s : String)
    (huuid : isUuid (jsTrim s) = true) (_hlen : (jsTrim s).length ≤ 64) :
    normalizeSession (.str s) = .kept (jsTrim s) := by
  have h36 : (jsTrim s).length = 36 := isUuid_length huuid
  unfold normalizeSession
  simp [h36, maxSessionLen, huuid]

/-- Witness for C9 at a concrete whitespace-padded UUID. -/
theorem normalizeSession_keeps_trimmed_uuid_witness :
    normalizeSession (.str "  550e8400-e29b-41d4-a716-446655440000 ") =
      .kept "550e8400-e29b-41d4-a716-446655440000" := by
  have h := normalizeSession_keeps_trimmed_uuid "  550e8400-e29b-41d4-a716-446655440000 "
    (by decide) (by decide)
  simpa using h


/-- The `sanitizeInclude` accumulator loop equals: first-occurrence
deduplication of the surviving trimmed entries, truncated to the remaining
capacity, appended to the accumulator. -/
theorem sanitizeLoop_eq (items : List JsVal) (out : List String) :
    sanitizeLoop out items =
      out ++ (dedupFirst out (items.filterMap includeSurvivor)).take
        (maxIncludeItems - out.length) := by
  induction items generalizing out with
  | nil => simp [sanitizeLoop, dedupFirst]
  | cons item rest ih =>
    by_cases hfull : out.length ≥ maxIncludeItems
    · have hz : maxIncludeItems - out.length = 0 := by omega
      simp [sanitizeLoop, hfull, hz]
    · rcases item with s0 | n | b | _ | _ | xs | i
      · simp only [sanitizeLoop, if_neg hfull]
        by_cases hdrop : (jsTrim s0).length = 0 ∨ (jsTrim s0).length > maxIncludeItemLen
        · simp only [if_pos hdrop, List.filterMap_cons, includeSurvivor, if_pos hdrop]
          exact ih out
        · simp only [if_neg hdrop, List.filterMap_cons, includeSurvivor, if_neg hdrop]
          by_cases hmem : out.contains (jsTrim s0)
          · simp only [hmem, if_true, dedupFirst, hmem]
            exact ih out
          · simp only [hmem, if_false, dedupFirst, hmem]
            rw [ih (out ++ [jsTrim s0])]
            have hcap : maxIncludeItems - out.length =
                (maxIncludeItems - (out ++ [jsTrim s0]).length) + 1 := by
              simp [List.length_append]; omega
            rw [hcap]
            simp [List.take_succ_cons, List.append_assoc]
      all_goals
        simp only [sanitizeLoop, if_neg hfull, List.filterMap_cons, includeSurvivor]
        exact ih out

/-- C8: for every input, `sanitizeInclude` agrees with the specification-side
sanitization — the trimmed string entries with empty and over-length entries
dropped, first occurrences kept in insertion order, truncated to 8 entries,
`undefined` when nothing survives, and `undefined` for every non-sequence
input — and the concrete example maps as the spec states. -/
theorem sanitizeInclude_spec :
    (∀ v : JsVal, sanitizeInclude v = sanitizeIncludeSpec v) ∧
    sanitizeInclude (.arr [.str "  loa  ", .str "loa", .str "",
      .str (String.mk (List.replicate 100 'x')), .str "session", .num 123]) =
      some ["loa", "session"] := by
  constructor
  · intro v
    rcases v with s | n | b | _ | _ | items | i <;>
      simp only [sanitizeInclude, sanitizeIncludeSpec]
    rw [sanitizeLoop_eq]
    simp only [Nat.sub_zero, List.length_nil, List.nil_append]
    rcases h : (dedupFirst [] (items.filterMap includeSurvivor)).take maxIncludeItems with
      _ | ⟨x, xs⟩ <;> simp
  · decide

/-- C5: for every resolved backend URL: same-origin resolutions succeed
exactly when the scheme is https or matches the page's scheme, returning the
resolved absolute URL; cross-origin resolutions fail unless cross-origin was
opted into and some allowlist entry resolves to the same origin, and even
then fail unless the scheme is https. -/
theorem resolveBackendVerifyUrl_policy (pageHref pageOrigin pageProtocol : String)
    (allowCrossOrigin : Bool) (allowedOriginEntries : List (Option String))
    (u : ResolvedUrl) (h1 : pageHref.length ≠ 0) (h2 : pageOrigin.length ≠ 0) :
    ((resolveBackendVerifyUrl pageHref pageOrigin allowCrossOrigin allowedOriginEntries
        (some u) pageProtocol).isOk = true ↔
      (if u.origin = pageOrigin
       then u.protocol = "https:" ∨ u.protocol = pageProtocol
       else allowCrossOrigin = true ∧ some u.origin ∈ allowedOriginEntries ∧
            u.protocol = "https:")) ∧
    (∀ out, resolveBackendVerifyUrl pageHref pageOrigin allowCrossOrigin allowedOriginEntries
        (some u) pageProtocol = .ok out → out = u.href) := by
  unfold resolveBackendVerifyUrl
  by_cases ho : u.origin = pageOrigin
  · have hb : (u.origin == pageOrigin) = true := beq_iff_eq.mpr ho
    simp only [hb, Bool.not_true, Bool.false_and, Bool.false_and, if_pos ho, if_false,
      Bool.true_and]
    by_cases hh : u.protocol = "https:"
    · have : (u.protocol != "https:") = false := by simp [hh]
      simp [this, hh, h1, h2, Except.isOk, Except.toBool]
    · have hne : (u.protocol != "https:") = true := by simp [hh]
      by_cases hp : u.protocol = pageProtocol
      · have : (u.protocol != pageProtocol) = false := by simp [hp]
        simp [hne, this, hp, h1, h2, Except.isOk, Except.toBool]
      · have : (u.protocol != pageProtocol) = true := by simp [hp]
        simp [hne, this, hh, hp, h1, h2, Except.isOk, Except.toBool]
  · have hb : (u.origin == pageOrigin) = false := by simp [ho]
    simp only [hb, Bool.not_false, Bool.true_and, if_neg ho]
    by_cases hx : allowCrossOrigin
    · simp only [hx, Bool.not_true, Bool.and_false, if_false, Bool.true_and]
      by_cases hal : allowedOriginEntries.any (fun e => e == some u.origin)
      · have hmem : some u.origin ∈ allowedOriginEntries := by
          rcases List.any_eq_true.mp hal with ⟨e, he, heq⟩
          rcases e with _ | e0
          · simp at heq
          · simpa [beq_iff_eq.mp heq] using he
        simp only [hal, Bool.not_true, Bool.and_false, if_false]
        by_cases hh : u.protocol = "https:"
        · have : (u.protocol != "https:") = false := by simp [hh]
          simp [this, hh, hmem, h1, h2, Except.isOk, Except.toBool]
        · have : (u.protocol != "https:") = true := by simp [hh]
          simp [this, hh, h1, h2, Except.isOk, Except.toBool]
      · have hnm : ¬ (some u.origin ∈ allowedOriginEntries) := by
          intro hmem
          exact hal (List.any_eq_true.mpr ⟨some u.origin, hmem, by simp⟩)
        simp [hal, hnm, h1, h2, Except.isOk, Except.toBool]
    · simp only [Bool.not_eq_true] at hx
      simp [hx, ho, h1, h2, Except.isOk, Except.toBool]

/-- Witness for C5: the allowlisted cross-origin https URL from the tests. -/
theorem resolveBackendVerifyUrl_policy_witness :
    ((resolveBackendVerifyUrl "https://rp.example/path" "https://rp.example" true
        [some "https://api.example"]
        (some ⟨"https://api.example", "https:", "https://api.example/verify"⟩)
        "https:").isOk = true ↔
      (if "https://api.example" = "https://rp.example"
       then "https:" = "https:" ∨ "https:" = "https:"
       else true = true ∧ some "https://api.example" ∈ [some "https://api.example"] ∧
            "https:" = "https:")) ∧
    (∀ out, resolveBackendVerifyUrl "https://rp.example/path" "https://rp.example" true
        [some "https://api.example"]
        (some ⟨"https://api.example", "https:", "https://api.example/verify"⟩)
        "https:" = .ok out → out = "https://api.example/verify") :=
  resolveBackendVerifyUrl_policy "https://rp.example/path" "https://rp.example" "https:"
    true [some "https://api.example"]
    ⟨"https://api.example", "https:", "https://api.example/verify"⟩
    (by decide) (by decide)

/-- C7: `b64urlToBytes` (at the default ceilings) returns decoded bytes
exactly when the input is a non-empty string of at most 64,000 characters
whose base64url→base64 translation has a length remainder mod 4 other
than 1, whose padded form base64-decodes, and whose decoded length is at
most 64,000 bytes; in every other case it throws, and on success the result
is exactly the platform decoder's output. -/
theorem b64urlToBytes_ok_iff (v : JsVal) (bytes : List Nat) :
    b64urlToBytes v maxTokenB64urlChars maxGzipBytes = .ok bytes ↔
    ∃ s, v = .str s ∧ s.length ≠ 0 ∧ s.length ≤ 64000 ∧
      (b64urlTranslate s).length % 4 ≠ 1 ∧
      atob (b64AddPad (b64urlTranslate s)) = some bytes ∧ bytes.length ≤ 64000 := by
  constructor
  · intro h
    cases v with
    | str s =>
      simp only [b64urlToBytes] at h
      refine ⟨s, rfl, ?_⟩
      by_cases h0 : s.length == 0
      · simp [h0] at h
      · simp only [h0, if_false] at h
        by_cases hlen : s.length > maxTokenB64urlChars
        · simp [hlen] at h
        · simp only [if_neg hlen] at h
          by_cases hrem : (b64urlTranslate s).length % 4 == 1
          · simp [hrem] at h
          · simp only [hrem, if_false] at h
            rcases hd : atob (b64AddPad (b64urlTranslate s)) with _ | out
            · rw [hd] at h; exact absurd h (by simp)
            · rw [hd] at h
              by_cases hbig : out.length > maxGzipBytes
              · simp [hbig] at h
              · simp only [if_neg hbig] at h
                have hout : out = bytes := by simpa using h
                subst hout
                refine ⟨by simpa using h0, ?_, by simpa using hrem, rfl, ?_⟩
                · simp [maxTokenB64urlChars] at hlen; omega
                · simp [maxGzipBytes] at hbig; omega
    | num n => simp [b64urlToBytes] at h
    | bool b => simp [b64urlToBytes] at h
    | null => simp [b64urlToBytes] at h
    | undefinedVal => simp [b64urlToBytes] at h
    | arr xs => simp [b64urlToBytes] at h
    | obj i => simp [b64urlToBytes] at h
  · rintro ⟨s, rfl, h0, hlen, hrem, hd, hsize⟩
    simp only [b64urlToBytes]
    have h0' : (s.length == 0) = false := by simpa using h0
    have hlen' : ¬ s.length > maxTokenB64urlChars := by simp [maxTokenB64urlChars]; omega
    have hrem' : ((b64urlTranslate s).length % 4 == 1) = false := by simpa using hrem
    have hsize' : ¬ bytes.length > maxGzipBytes := by simp [maxGzipBytes]; omega
    simp [h0', hlen', hrem', hd, hsize']

/-- `finishFailure` is a no-op once `done` is set. -/
theorem finishFailure_of_done {st : GateSt} (msg : String) (h : st.done = true) :
    finishFailure st msg = (st, []) := by simp [finishFailure, h]

/-- `finishSuccess` is a no-op once `done` is set. -/
theorem finishSuccess_of_done {st : GateSt} (jwt : String)
    (payload : List (String × JsVal)) (r : JsVal) (h : st.done = true) :
    finishSuccess st jwt payload r = (st, []) := by simp [finishSuccess, h]

/-- The handler rejects every message once `done` is set. -/
theorem handlerAccepts_of_done {cfg : LaunchCfg} {st : GateSt} {e : MessageEvent}
    (h : st.done = true) : handlerAccepts cfg st e = false := by
  simp [handlerAccepts, h]

/-- The handler is a complete no-op once `done` is set. -/
theorem handler_of_done {cfg : LaunchCfg} {st : GateSt} {e : MessageEvent}
    (h : st.done = true) : handler cfg st e = (st, []) := by
  simp [handler, handlerAccepts_of_done h]

/-- Once `done` is set, no event emits a callback, and `done` stays set. -/
theorem step_of_done {cfg : LaunchCfg} {st : GateSt} (ev : GateEvent)
    (h : st.done = true) :
    (step cfg st ev).2 = [] ∧ (step cfg st ev).1.done = true := by
  cases ev with
  | message e =>
    by_cases hl : st.listenerAttached <;> simp [step, hl, handler_of_done h, h]
  | timeoutFire =>
    by_cases ht : st.timeoutActive <;> simp [step, ht, finishFailure_of_done _ h, h]
  | pollTick closed =>
    by_cases hp : st.pollActive && closed <;> simp [step, hp, h, cleanup]
  | backendDone res =>
    by_cases hw : st.awaitingBackend
    · cases res with
      | ok r => simp [step, hw, h, finishSuccess]
      | error msg => simp [step, hw, h, finishFailure]
    · simp [step, hw, h]

/-- An accepted message implies the handshake was neither terminated nor
mid-processing. -/
theorem handlerAccepts_flags {cfg : LaunchCfg} {st : GateSt} {e : MessageEvent}
    (h : handlerAccepts cfg st e = true) : st.done = false ∧ st.processing = false := by
  unfold handlerAccepts at h
  simp only [Bool.and_eq_true, Bool.not_eq_true'] at h
  exact ⟨h.1.1.1.1, h.1.1.1.2⟩

/-- When the handler emits callbacks at all, the handshake was live, exactly
one callback is emitted and the resulting state is cleaned-up terminal. -/
theorem handler_emit {cfg : LaunchCfg} {st : GateSt} {e : MessageEvent}
    (h : (handler cfg st e).2 ≠ []) :
    st.done = false ∧ (handler cfg st e).2.length = 1 ∧
      terminalFacts (handler cfg st e).1 := by
  by_cases ha : handlerAccepts cfg st e
  · have hdone := (handlerAccepts_flags ha).1
    refine ⟨hdone, ?_⟩
    unfold handler
    rcases hd : decodeTokenPipeline cfg.ungzip (msgToken e) with msg | jwt
    · simp [ha, hd, finishFailure, hdone, terminalFacts, cleanup]
    · by_cases hb : cfg.hasBackend
      · exfalso
        apply h
        simp [handler, ha, hd, hb]
      · simp [ha, hd, hb, finishSuccess, hdone, terminalFacts, cleanup]
  · exfalso
    apply h
    simp [handler, ha]

/-- When a step emits callbacks at all, the handshake was live, exactly one
callback is emitted and the resulting state is cleaned-up terminal. -/
theorem step_emit {cfg : LaunchCfg} {st : GateSt} {ev : GateEvent}
    (h : (step cfg st ev).2 ≠ []) :
    st.done = false ∧ (step cfg st ev).2.length = 1 ∧
      terminalFacts (step cfg st ev).1 := by
  cases ev with
  | message e =>
    by_cases hl : st.listenerAttached
    · simp only [step, hl, if_true] at h ⊢
      exact handler_emit h
    · exfalso; apply h; simp [step, hl]
  | timeoutFire =>
    by_cases ht : st.timeoutActive
    · simp only [step, ht, if_true] at h ⊢
      by_cases hdone : st.done
      · exfalso; apply h; simp [finishFailure, hdone]
      · simp only [Bool.not_eq_true] at hdone
        simp [finishFailure, hdone, terminalFacts, cleanup]
    · exfalso; apply h; simp [step, ht]
  | pollTick closed =>
    exfalso; apply h
    by_cases hp : st.pollActive && closed <;> simp [step, hp]
  | backendDone res =>
    by_cases hw : st.awaitingBackend
    · simp only [step, hw, if_true] at h ⊢
      by_cases hdone : st.done
      · exfalso; apply h
        cases res <;> simp [finishSuccess, finishFailure, hdone]
      · simp only [Bool.not_eq_true] at hdone
        cases res <;> simp [finishSuccess, finishFailure, hdone, terminalFacts, cleanup]
    · exfalso; apply h; simp [step, hw]

/-- A run started in a terminal state emits nothing. -/
theorem runFrom_of_done {cfg : LaunchCfg} {st : GateSt} {evs : List GateEvent}
    (h : st.done = true) : (runFrom cfg st evs).2 = [] := by
  induction evs generalizing st with
  | nil => simp [runFrom]
  | cons ev evs ih =>
    have hs := @step_of_done cfg st ev h
    simp [runFrom, hs.1, ih hs.2]

/-- Any run of the controller emits at most one callback. -/
theorem runFrom_le_one (cfg : LaunchCfg) (st : GateSt) (evs : List GateEvent) :
    (runFrom cfg st evs).2.length ≤ 1 := by
  induction evs generalizing st with
  | nil => simp [runFrom]
  | cons ev evs ih =>
    by_cases hnil : (step cfg st ev).2 = []
    · simpa [runFrom, hnil] using ih (step cfg st ev).1
    · have he := step_emit hnil
      have hrest : (runFrom cfg (step cfg st ev).1 evs).2 = [] :=
        runFrom_of_done he.2.2.1
      simp [runFrom, hrest, he.2.1]

/-- C1 (amended): every execution of a `launchAgeGate` call invokes at most
one of the success/failure callbacks; once a terminal transition has
happened no event emits a further callback and `done` stays set; and any
step that does emit leaves a cleaned-up terminal state (listener detached,
timers cleared, backend aborted, child-context close requested). -/
theorem launch_at_most_once :
    (∀ env opts cfg evs, (runLaunch env opts cfg evs).length ≤ 1) ∧
    (∀ (cfg : LaunchCfg) (st : GateSt) (ev : GateEvent), st.done = true →
      (step cfg st ev).2 = [] ∧ (step cfg st ev).1.done = true) ∧
    (∀ (cfg : LaunchCfg) (st : GateSt) (ev : GateEvent), (step cfg st ev).2 ≠ [] →
      terminalFacts (step cfg st ev).1) := by
  refine ⟨?_, fun cfg st ev h => step_of_done ev h,
    fun cfg st ev h => (step_emit h).2.2⟩
  intro env opts cfg evs
  unfold runLaunch launch
  by_cases h1 : !env.noReferrerMeta && opts.requireNoReferrer
  · simp [h1]
  · by_cases h2 : env.popupOpens
    · simp only [h1, if_false, h2, Bool.not_true, if_false]
      simpa using runFrom_le_one cfg (initSt cfg.timeoutArmed) evs
    · by_cases h3 : opts.allowFullPageFallback <;>
        simp [h1, h2, h3]

/-- Witness for C1 (amended) at a concrete terminal state and event. -/
theorem launch_at_most_once_witness :
    (step (LaunchCfg.mk "s" none false false 0 (fun _ => none))
        (GateSt.mk true false false false false true true false "" [])
        .timeoutFire).2 = [] ∧
    (step (LaunchCfg.mk "s" none false false 0 (fun _ => none))
        (GateSt.mk true false false false false true true false "" [])
        .timeoutFire).1.done = true :=
  launch_at_most_once.2.1 _ _ _ rfl

/-- Counterexample to C1 as stated: a complete execution — popup blocked,
full-page fallback allowed, followed by poll ticks, the (unarmed) timeout and
a well-formed message — invokes zero callbacks, not exactly one. -/
theorem launch_zero_callbacks_cex :
    runLaunch (LaunchEnv.mk true false) (LaunchOpts.mk false true)
      (LaunchCfg.mk "s" none false false 0 (fun _ => none))
      [.pollTick true, .timeoutFire, .message ⟨CHILD_ORIGIN, some 0,
        .objData (.str "AQ") (.str "s") (.obj 1)⟩] = [] := rfl

/-- C4: once a terminal transition set `done`, every subsequent event — a
further message, a timeout firing, a poll tick, or the backend await
resuming — emits no callback and no further terminal transition occurs, and
a second call to either terminal transition is a no-op. -/
theorem terminal_idempotent (cfg : LaunchCfg) (st : GateSt) (ev : GateEvent)
    (jwt : String) (payload : List (String × JsVal)) (br : JsVal) (msg : String)
    (h : st.done = true) :
    (step cfg st ev).2 = [] ∧ (step cfg st ev).1.done = true ∧
    finishSuccess st jwt payload br = (st, []) ∧ finishFailure st msg = (st, []) :=
  ⟨(step_of_done ev h).1, (step_of_done ev h).2,
   finishSuccess_of_done jwt payload br h, finishFailure_of_done msg h⟩

/-- Witness for C4 at a concrete terminal state. -/
theorem terminal_idempotent_witness :
    (step (LaunchCfg.mk "s" none false false 0 (fun _ => none))
        (GateSt.mk true false false false false true true false "" [])
        (.pollTick true)).2 = [] ∧
    (step (LaunchCfg.mk "s" none false false 0 (fun _ => none))
        (GateSt.mk true false false false false true true false "" [])
        (.pollTick true)).1.done = true ∧
    finishSuccess (GateSt.mk true false false false false true true false "" [])
      "j" [] .null = (GateSt.mk true false false false false true true false "" [], []) ∧
    finishFailure (GateSt.mk true false false false false true true false "" [])
      "m" = (GateSt.mk true false false false false true true false "" [], []) :=
  terminal_idempotent _ _ (.pollTick true) "j" [] .null "m" rfl

/-- An empty string is the only string of length zero. -/
theorem str_len_zero_iff (s : String) : s.length = 0 ↔ s = "" := by
  constructor
  · intro hl
    cases s with
    | mk data =>
      cases data with
      | nil => rfl
      | cons c cs => simp [String.length] at hl
  · intro h; simp [h]

/-- The handler's guard sequence accepts exactly the conditions of the claim
amended with a non-empty token. -/
theorem handlerAccepts_iff (cfg : LaunchCfg) (st : GateSt) (e : MessageEvent) :
    handlerAccepts cfg st e = true ↔ acceptConditions cfg st e := by
  rcases e with ⟨orig, src, data⟩
  cases data with
  | nonObj v =>
    simp [handlerAccepts, acceptConditions]
  | objData tok ses auth =>
    cases tok <;> cases ses <;>
      simp [handlerAccepts, acceptConditions, Bool.and_eq_true, Bool.not_eq_true',
        beq_iff_eq, JsVal.isTruthyObject, str_len_zero_iff, and_assoc] <;>
      intros <;> tauto

/-- C3 (amended): the handler enters processing iff the handshake is live,
origin and source match, and the payload is a non-null object carrying a
non-empty string token, the exact active session and an object
authentication response; every rejected message leaves the state unchanged
and invokes no callback. -/
theorem handler_accepts_iff_amended (cfg : LaunchCfg) (st : GateSt) (e : MessageEvent) :
    (handlerAccepts cfg st e = true ↔ acceptConditions cfg st e) ∧
    (handlerAccepts cfg st e = false → handler cfg st e = (st, [])) :=
  ⟨handlerAccepts_iff cfg st e, fun h => by simp [handler, h]⟩

/-- Witness for C3 (amended): a wrong-origin message is rejected with no
state change and no callback. -/
theorem handler_accepts_iff_amended_witness :
    handler (LaunchCfg.mk "s" none false false 0 (fun _ => none))
        (initSt false) ⟨"https://evil.example", some 0,
          .objData (.str "AQ") (.str "s") (.obj 1)⟩ = (initSt false, []) :=
  (handler_accepts_iff_amended _ _ _).2 rfl

/-- Counterexample to C3 as stated: a message carrying an empty-string
token satisfies every condition of the claim (its token is a string), yet
the handler rejects it and does not enter processing. -/
theorem spec_conditions_cex :
    specAcceptConditions (LaunchCfg.mk "s" none false false 0 (fun _ => none))
      (initSt false)
      ⟨CHILD_ORIGIN, some 0, .objData (.str "") (.str "s") (.obj 1)⟩ ∧
    handlerAccepts (LaunchCfg.mk "s" none false false 0 (fun _ => none))
      (initSt false)
      ⟨CHILD_ORIGIN, some 0, .objData (.str "") (.str "s") (.obj 1)⟩ = false ∧
    handler (LaunchCfg.mk "s" none false false 0 (fun _ => none))
      (initSt false)
      ⟨CHILD_ORIGIN, some 0, .objData (.str "") (.str "s") (.obj 1)⟩ =
      (initSt false, []) :=
  ⟨⟨rfl, rfl, rfl, rfl, .str "", .str "s", .obj 1, rfl, rfl, rfl, rfl⟩, rfl, rfl⟩

/-- C10: a message that passes the origin, source and session checks but
carries an empty-string token is silently ignored: the handler returns with
the state unchanged (still listening) and no callback, never reaching the
decode pipeline. -/
theorem empty_token_ignored (cfg : LaunchCfg) (st : GateSt) (i : Nat)
    (_h1 : st.done = false) (_h2 : st.processing = false) :
    handler cfg st ⟨CHILD_ORIGIN, some cfg.popupRef,
      .objData (.str "") (.str cfg.agegatewaySession) (.obj i)⟩ = (st, []) := by
  have hrej : handlerAccepts cfg st ⟨CHILD_ORIGIN, some cfg.popupRef,
      .objData (.str "") (.str cfg.agegatewaySession) (.obj i)⟩ = false := by
    simp [handlerAccepts]
  simp [handler, hrej]

/-- Witness for C10 at a concrete listening state. -/
theorem empty_token_ignored_witness :
    handler (LaunchCfg.mk "s" none false false 0 (fun _ => none)) (initSt true)
      ⟨CHILD_ORIGIN, some 0, .objData (.str "") (.str "s") (.obj 1)⟩ =
      (initSt true, []) :=
  empty_token_ignored (LaunchCfg.mk "s" none false false 0 (fun _ => none))
    (initSt true) 1 rfl rfl

/-- C2 (amended): the result payload assembled after a successful decode has
exactly the keys `include`, `agegateway_session` (holding the active
session) and `authenticationResponse` — no key named `session` — the backend
POST body prepends `jwt` to those same keys, and every success callback the
handler emits carries exactly that payload. -/
theorem payload_keys_amended :
    (∀ (inc : Option (List String)) (ses : String) (auth : JsVal),
      (mkPayload inc ses auth).map Prod.fst =
        ["include", "agegateway_session", "authenticationResponse"] ∧
      (mkPayload inc ses auth).lookup "agegateway_session" = some (.str ses) ∧
      ((mkPayload inc ses auth).map Prod.fst).contains "session" = false) ∧
    (∀ (jwt : String) (payload : List (String × JsVal)),
      (backendBody jwt payload).map Prod.fst = "jwt" :: payload.map Prod.fst) ∧
    (∀ (cfg : LaunchCfg) (st : GateSt) (e : MessageEvent) (jwt : String)
       (payload : List (String × JsVal)) (br : JsVal),
      (handler cfg st e).2 = [.success jwt payload br] →
        payload = mkPayload cfg.includeList cfg.agegatewaySession (msgAuthResp e)) := by
  refine ⟨fun inc ses auth => ⟨?_, ?_, ?_⟩, fun jwt payload => rfl, ?_⟩
  · cases inc <;> rfl
  · cases inc <;> rfl
  · cases inc <;> rfl
  · intro cfg st e jwt payload br h
    by_cases ha : handlerAccepts cfg st e
    · unfold handler at h
      rcases hd : decodeTokenPipeline cfg.ungzip (msgToken e) with msg | jwt2
      · rw [if_pos ha, hd] at h
        by_cases hdone : st.done <;>
          simp [finishFailure, hdone] at h
      · rw [if_pos ha, hd] at h
        by_cases hb : cfg.hasBackend
        · simp [hb] at h
        · by_cases hdone : st.done <;>
            simp [finishSuccess, hb, hdone] at h
          exact h.2.1.symm
    · simp [handler, ha] at h

/-- Witness for C2 (amended): the payload of a concrete successful handler
run is exactly the assembled object. -/
theorem payload_keys_amended_witness :
    ([("include", JsVal.arr [.str "loa"]), ("agegateway_session", JsVal.str "sess1"),
        ("authenticationResponse", JsVal.obj 3)] :
        List (String × JsVal)) =
      mkPayload (some ["loa"]) "sess1" (.obj 3) :=
  payload_keys_amended.2.2
    (LaunchCfg.mk "sess1" (some ["loa"]) false false 7 (fun _ => some "612e62"))
    (initSt false)
    ⟨CHILD_ORIGIN, some 7, .objData (.str "AQ") (.str "sess1") (.obj 3)⟩
    "a.b" _ .null rfl

/-- Counterexample to C2 as stated: the concrete successful run delivers a
payload whose keys are `include`, `agegateway_session`,
`authenticationResponse` — there is no field named `session`, neither in the
payload nor among the backend body keys. -/
theorem payload_session_key_cex :
    (handler (LaunchCfg.mk "sess1" (some ["loa"]) false false 7 (fun _ => some "612e62"))
        (initSt false)
        ⟨CHILD_ORIGIN, some 7, .objData (.str "AQ") (.str "sess1") (.obj 3)⟩).2 =
      [.success "a.b"
        [("include", .arr [.str "loa"]), ("agegateway_session", .str "sess1"),
         ("authenticationResponse", .obj 3)] .null] ∧
    ((["include", "agegateway_session", "authenticationResponse"] :
        List String).contains "session") = false ∧
    (("jwt" :: ["include", "agegateway_session", "authenticationResponse"] :
        List String).contains "session") = false :=
  ⟨rfl, by decide, by decide⟩

/-- Looking an alphabet character back up recovers its index. -/
theorem b64Chr_index : ∀ i < 64, b64Index (b64Chr i) = some i := by decide

/-- No alphabet character is base64 whitespace. -/
theorem b64Tbl_not_ws : ∀ c ∈ b64Tbl, isB64Ws c = false := by decide

/-- No alphabet character is the padding character. -/
theorem b64Tbl_ne_eq : ∀ c ∈ b64Tbl, c ≠ '=' := by decide

/-- The base64url backward translation undoes the forward translation on
alphabet characters. -/
theorem b64Tbl_fwd_back : ∀ c ∈ b64Tbl, b64urlBackChar (b64urlFwdChar c) = c := by decide

/-- The forward translation never produces the padding character from an
alphabet character. -/
theorem b64Tbl_fwd_ne_eq : ∀ c ∈ b64Tbl, b64urlFwdChar c ≠ '=' := by decide

/-- Alphabet characters at valid indices are in the alphabet. -/
theorem b64Chr_mem : ∀ i < 64, b64Chr i ∈ b64Tbl := by decide

/-- The padded standard encoding splits into the alphabet core and its
padding. -/
theorem b64EncodeChunks_split : ∀ l : List Nat,
    b64EncodeChunks l = (b64IdxsCore l).map b64Chr ++
      List.replicate ((3 - l.length % 3) % 3) '='
  | [] => rfl
  | [b0] => rfl
  | [b0, b1] => rfl
  | b0 :: b1 :: b2 :: rest => by
    have ih := b64EncodeChunks_split rest
    have hm : ((b0 :: b1 :: b2 :: rest).length % 3) = rest.length % 3 := by
      simp [List.length_cons]; omega
    simp only [b64EncodeChunks, b64IdxsCore, List.map_cons, hm, ih, List.cons_append]

/-- The 6-bit groups of a byte list are below 64. -/
theorem b64IdxsCore_lt : ∀ l : List Nat, (∀ b ∈ l, b < 256) →
    ∀ i ∈ b64IdxsCore l, i < 64
  | [], _ => by simp [b64IdxsCore]
  | [b0], h => by
    have h0 := h b0 (by simp)
    simp [b64IdxsCore]
    omega
  | [b0, b1], h => by
    have h0 := h b0 (by simp)
    have h1 := h b1 (by simp)
    simp [b64IdxsCore]
    omega
  | b0 :: b1 :: b2 :: rest, h => by
    have h0 := h b0 (by simp)
    have h1 := h b1 (by simp)
    have h2 := h b2 (by simp)
    have ih := b64IdxsCore_lt rest (fun b hb => h b (by simp [hb]))
    intro i hi
    simp only [b64IdxsCore, List.mem_cons] at hi
    rcases hi with rfl | rfl | rfl | rfl | hi
    · omega
    · omega
    · omega
    · omega
    · exact ih i hi

/-- Decoding the 6-bit groups recovers the bytes. -/
theorem b64Groups_idxs : ∀ l : List Nat, (∀ b ∈ l, b < 256) →
    b64Groups (b64IdxsCore l) = l
  | [], _ => rfl
  | [b0], h => by
    have h0 := h b0 (by simp)
    simp [b64IdxsCore, b64Groups]
    omega
  | [b0, b1], h => by
    have h0 := h b0 (by simp)
    have h1 := h b1 (by simp)
    simp [b64IdxsCore, b64Groups]
    omega
  | b0 :: b1 :: b2 :: rest, h => by
    have h0 := h b0 (by simp)
    have h1 := h b1 (by simp)
    have h2 := h b2 (by simp)
    have ih := b64Groups_idxs rest (fun b hb => h b (by simp [hb]))
    simp only [b64IdxsCore, b64Groups, ih, List.cons.injEq]
    refine ⟨by omega, by omega, by omega, trivial⟩

/-- Length of the unpadded encoding. -/
theorem b64IdxsCore_length : ∀ l : List Nat,
    (b64IdxsCore l).length = (4 * l.length + 2) / 3
  | [] => rfl
  | [b0] => by simp [b64IdxsCore]
  | [b0, b1] => by simp [b64IdxsCore]
  | b0 :: b1 :: b2 :: rest => by
    have ih := b64IdxsCore_length rest
    simp only [b64IdxsCore, List.length_cons, ih]
    omega

/-- Alphabet lookup of an encoded index list succeeds. -/
theorem b64Indices_map_chr (idxs : List Nat) (h : ∀ i ∈ idxs, i < 64) :
    b64Indices (idxs.map b64Chr) = some idxs := by
  induction idxs with
  | nil => rfl
  | cons i is ih =>
    have hi := h i (by simp)
    have hrest := ih (fun j hj => h j (by simp [hj]))
    simp [b64Indices, b64Chr_index i hi, hrest]

/-- `dropWhile` swallows a replicated satisfying prefix. -/
theorem dropWhile_replicate_append (p : Char → Bool) (k : Nat) (c : Char)
    (hp : p c = true) (xs : List Char) :
    (List.replicate k c ++ xs).dropWhile p = xs.dropWhile p := by
  induction k with
  | zero => simp
  | succ n ih => simpa [List.replicate_succ, List.dropWhile_cons, hp] using ih

/-- `dropWhile` is the identity when the head fails the predicate. -/
theorem dropWhile_eq_self_of_all (p : Char → Bool) (xs : List Char)
    (h : ∀ x ∈ xs, p x = false) : xs.dropWhile p = xs := by
  cases xs with
  | nil => rfl
  | cons x rest => simp [List.dropWhile_cons, h x (by simp)]

/-- Stripping trailing padding undoes appending it. -/
theorem stripTrailingEq_append (xs : List Char) (k : Nat)
    (h : ∀ x ∈ xs, x ≠ '=') :
    stripTrailingEq (xs ++ List.replicate k '=') = xs := by
  unfold stripTrailingEq
  rw [List.reverse_append, List.reverse_replicate,
    dropWhile_replicate_append _ k '=' (by simp) xs.reverse,
    dropWhile_eq_self_of_all _ _ (by
      intro x hx
      have := h x (List.mem_reverse.mp hx)
      simpa using this),
    List.reverse_reverse]

/-- The forgiving-base64 padding removal undoes appending up to two `=`. -/
theorem dropTrailingPad_append (xs : List Char) (k : Nat) (hk : k ≤ 2)
    (h : ∀ x ∈ xs, x ≠ '=') :
    dropTrailingPad (xs ++ List.replicate k '=') = xs := by
  have hall : ∀ n, ∀ x ∈ xs.reverse.take n, (x == '=') = false := by
    intro n x hx
    simpa using h x (List.mem_reverse.mp (List.mem_of_mem_take hx))
  unfold dropTrailingPad
  rw [List.reverse_append, List.reverse_replicate]
  interval_cases k
  · simp only [List.replicate, List.nil_append]
    rw [dropWhile_eq_self_of_all _ _ (hall 2)]
    rw [← List.reverse_append, List.take_append_drop, List.reverse_reverse]
  · simp only [List.replicate, List.nil_append, List.cons_append]
    rw [List.drop_succ_cons, List.take_succ_cons, List.dropWhile_cons]
    simp only [beq_self_eq_true, if_true]
    rw [dropWhile_eq_self_of_all _ _ (hall 1)]
    rw [← List.reverse_append, List.take_append_drop, List.reverse_reverse]
  · simp only [List.replicate, List.nil_append, List.cons_append]
    rw [List.drop_succ_cons, List.drop_succ_cons, List.take_succ_cons,
      List.take_succ_cons, List.take_zero, List.dropWhile_cons]
    simp only [beq_self_eq_true, if_true, List.dropWhile_cons]
    simp

/-- The platform base64 decoder inverts the standard padded encoding. -/
theorem atob_encode (l : List Nat) (hb : ∀ b ∈ l, b < 256) :
    atob ⟨(b64IdxsCore l).map b64Chr ++
      List.replicate ((3 - l.length % 3) % 3) '='⟩ = some l := by
  set k := (3 - l.length % 3) % 3 with hk
  have hcore_mem : ∀ c ∈ (b64IdxsCore l).map b64Chr, c ∈ b64Tbl := by
    intro c hc
    rcases List.mem_map.mp hc with ⟨i, hi, rfl⟩
    exact b64Chr_mem i (b64IdxsCore_lt l hb i hi)
  have hfilter : ((b64IdxsCore l).map b64Chr ++ List.replicate k '=').filter
      (fun c => !isB64Ws c) = (b64IdxsCore l).map b64Chr ++ List.replicate k '=' := by
    rw [List.filter_eq_self]
    intro c hc
    rcases List.mem_append.mp hc with hc | hc
    · simp [b64Tbl_not_ws c (hcore_mem c hc)]
    · have hce : c = '=' := List.eq_of_mem_replicate hc
      subst hce; decide
  have hcore_len : ((b64IdxsCore l).map b64Chr).length = (4 * l.length + 2) / 3 := by
    simp [b64IdxsCore_length]
  have hlen4 : (((b64IdxsCore l).map b64Chr ++ List.replicate k '=').length % 4 == 0)
      = true := by
    rw [List.length_append, List.length_replicate, hcore_len, hk]
    simp only [beq_iff_eq]
    have h3 : l.length % 3 = 0 ∨ l.length % 3 = 1 ∨ l.length % 3 = 2 := by omega
    rcases h3 with h3 | h3 | h3 <;> rw [h3] <;> omega
  have hdrop : dropTrailingPad ((b64IdxsCore l).map b64Chr ++ List.replicate k '=') =
      (b64IdxsCore l).map b64Chr :=
    dropTrailingPad_append _ k (by omega)
      (fun x hx => b64Tbl_ne_eq x (hcore_mem x hx))
  have hrem : (((b64IdxsCore l).map b64Chr).length % 4 == 1) = false := by
    rw [hcore_len]
    simp only [beq_eq_false_iff_ne, ne_eq]
    omega
  have hidx : b64Indices ((b64IdxsCore l).map b64Chr) = some (b64IdxsCore l) :=
    b64Indices_map_chr _ (b64IdxsCore_lt l hb)
  unfold atob
  simp only [hfilter, hlen4, if_true, hdrop, hrem, if_false, hidx, Option.bind_some,
    Option.pure_def, Option.bind_eq_bind]
  simp [b64Groups_idxs l hb]

/-- Characters of a concatenation. -/
theorem string_data_append (a b : List Char) :
    (String.mk a ++ String.mk b).data = a ++ b := rfl

/-- `bytesToB64url` produces exactly the translated unpadded alphabet core. -/
theorem bytesToB64url_eq_core (l : List Nat) (hb : ∀ b ∈ l, b < 256) :
    bytesToB64url l = ⟨((b64IdxsCore l).map b64Chr).map b64urlFwdChar⟩ := by
  have hcore_mem : ∀ c ∈ (b64IdxsCore l).map b64Chr, c ∈ b64Tbl := by
    intro c hc
    rcases List.mem_map.mp hc with ⟨i, hi, rfl⟩
    exact b64Chr_mem i (b64IdxsCore_lt l hb i hi)
  unfold bytesToB64url
  rw [b64EncodeChunks_split l, List.map_append, List.map_replicate]
  have hfe : b64urlFwdChar '=' = '=' := rfl
  rw [hfe, stripTrailingEq_append]
  intro x hx
  rcases List.mem_map.mp hx with ⟨c, hc, rfl⟩
  exact b64Tbl_fwd_ne_eq c (hcore_mem c hc)

/-- `b64urlToBytes` (at the default ceilings) inverts `bytesToB64url` for
nonempty byte lists of at most 48,000 bytes. -/
theorem b64url_roundtrip (l : List Nat) (hb : ∀ b ∈ l, b < 256) (hne : l ≠ [])
    (hlen : l.length ≤ 48000) :
    b64urlToBytes (.str (bytesToB64url l)) maxTokenB64urlChars maxGzipBytes = .ok l := by
  have hcore_mem : ∀ c ∈ (b64IdxsCore l).map b64Chr, c ∈ b64Tbl := by
    intro c hc
    rcases List.mem_map.mp hc with ⟨i, hi, rfl⟩
    exact b64Chr_mem i (b64IdxsCore_lt l hb i hi)
  have hcore_len : ((b64IdxsCore l).map b64Chr).length = (4 * l.length + 2) / 3 := by
    simp [b64IdxsCore_length]
  have hne' : 0 < l.length := List.length_pos.mpr hne
  rw [bytesToB64url_eq_core l hb]
  -- the translated token is the untranslated alphabet core
  have htrans : b64urlTranslate ⟨((b64IdxsCore l).map b64Chr).map b64urlFwdChar⟩ =
      ⟨(b64IdxsCore l).map b64Chr⟩ := by
    unfold b64urlTranslate
    congr 1
    rw [List.map_map]
    have : ∀ c ∈ (b64IdxsCore l).map b64Chr,
        (b64urlBackChar ∘ b64urlFwdChar) c = id c := by
      intro c hc
      simpa using b64Tbl_fwd_back c (hcore_mem c hc)
    rw [List.map_congr_left this, List.map_id]
  have htoklen : (String.mk (((b64IdxsCore l).map b64Chr).map b64urlFwdChar)).length =
      (4 * l.length + 2) / 3 := by
    simp [String.length, b64IdxsCore_length]
  rw [b64urlToBytes_ok_iff]
  refine ⟨_, rfl, ?_, ?_, ?_, ?_, by omega⟩
  · rw [htoklen]; omega
  · rw [htoklen]; omega
  · rw [htrans]
    have : (String.mk ((b64IdxsCore l).map b64Chr)).length = (4 * l.length + 2) / 3 := by
      simp [String.length, b64IdxsCore_length]
    rw [this]
    have h3 : l.length % 3 = 0 ∨ l.length % 3 = 1 ∨ l.length % 3 = 2 := by omega
    rcases h3 with h3 | h3 | h3 <;> omega
  · rw [htrans]
    -- compute the re-added padding and close with atob_encode
    have hpad : b64AddPad ⟨(b64IdxsCore l).map b64Chr⟩ =
        ⟨(b64IdxsCore l).map b64Chr ++ List.replicate ((3 - l.length % 3) % 3) '='⟩ := by
      unfold b64AddPad
      have hlen' : (String.mk ((b64IdxsCore l).map b64Chr)).length =
          (4 * l.length + 2) / 3 := by
        simp [String.length, b64IdxsCore_length]
      rw [hlen']
      have h3 : l.length % 3 = 0 ∨ l.length % 3 = 1 ∨ l.length % 3 = 2 := by omega
      rcases h3 with h3 | h3 | h3
      · have hm : (4 * l.length + 2) / 3 % 4 = 0 := by omega
        have hk : (3 - l.length % 3) % 3 = 0 := by omega
        simp [hm, hk]
      · have hm : (4 * l.length + 2) / 3 % 4 = 2 := by omega
        have hk : (3 - l.length % 3) % 3 = 2 := by omega
        rw [hm, hk]
        simp only [if_true]
        exact string_data_append _ _ ▸ congrArg String.mk rfl
      · have hm : (4 * l.length + 2) / 3 % 4 = 3 := by omega
        have hk : (3 - l.length % 3) % 3 = 1 := by omega
        rw [hm, hk]
        simp only [if_false, if_true]
        exact string_data_append _ _ ▸ congrArg String.mk rfl
    rw [hpad]
    exact atob_encode l hb

/-- Hex digit value roundtrip. -/
theorem hexDigit_val : ∀ n < 16, hexVal (hexDigit n) = n := by decide

/-- Hex digits are hex characters. -/
theorem hexDigit_isHex : ∀ n < 16, isHexDigitChar (hexDigit n) = true := by decide

/-- Hex pair decoding inverts hex encoding of bytes. -/
theorem hexPairs_roundtrip (l : List Nat) (hb : ∀ b ∈ l, b < 256) :
    hexPairsToBytes (l.flatMap (fun b => [hexDigit (b / 16), hexDigit (b % 16)])) = l := by
  induction l with
  | nil => rfl
  | cons b rest ih =>
    have hblt := hb b (by simp)
    have ihr := ih (fun x hx => hb x (by simp [hx]))
    rw [List.flatMap_cons]
    show hexPairsToBytes (hexDigit (b / 16) :: hexDigit (b % 16) ::
      rest.flatMap (fun b => [hexDigit (b / 16), hexDigit (b % 16)])) = b :: rest
    simp only [hexPairsToBytes]
    rw [ihr, hexDigit_val (b / 16) (by omega), hexDigit_val (b % 16) (by omega)]
    simp only [List.cons.injEq]
    exact ⟨by omega, trivial⟩

/-- `hexDigit` always produces a hex character (out-of-range indices hit the
default `'0'`). -/
theorem hexDigit_isHex_all (n : Nat) : isHexDigitChar (hexDigit n) = true := by
  by_cases h : n < 16
  · exact hexDigit_isHex n h
  · unfold hexDigit
    rw [List.getD_eq_default]
    · decide
    · have h16 : ("0123456789abcdef".data).length = 16 := by decide
      omega

/-- Every character of a hex encoding is a hex character. -/
theorem hexChars_all (l : List Nat) :
    ∀ c ∈ l.flatMap (fun b => [hexDigit (b / 16), hexDigit (b % 16)]),
      isHexDigitChar c = true := by
  intro c hc
  rcases List.mem_flatMap.mp hc with ⟨b, hb, hcb⟩
  simp only [List.mem_cons, List.not_mem_nil, or_false] at hcb
  rcases hcb with rfl | rfl
  · exact hexDigit_isHex_all (b / 16)
  · exact hexDigit_isHex_all (b % 16)

/-- Unicode scalar values are below 0x110000. -/
theorem char_toNat_lt (c : Char) : c.toNat < 1114112 := by
  rcases c.valid with h | ⟨h1, h2⟩
  · exact lt_trans h (by norm_num)
  · exact h2

/-- The lossy UTF-8 decoder consumes one encoded character per step. -/
theorem utf8DecodeLossyAux_encode (c : Char) (bs : List Nat) (fuel : Nat) :
    utf8DecodeLossyAux (fuel + 1) (utf8EncodeChar c ++ bs) =
      c :: utf8DecodeLossyAux fuel bs := by
  have hlt := char_toNat_lt c
  by_cases h1 : c.toNat < 0x80
  · simp only [utf8EncodeChar, if_pos h1, List.cons_append, List.nil_append]
    simp only [utf8DecodeLossyAux, utf8Step, if_pos h1]
    simp [Char.ofNat_toNat]
  · by_cases h2 : c.toNat < 0x800
    · simp only [utf8EncodeChar, if_neg h1, if_pos h2, List.cons_append, List.nil_append]
      simp only [utf8DecodeLossyAux, utf8Step]
      rw [if_neg (by omega), if_neg (by omega), if_pos (by omega)]
      have hcont : isCont (0x80 + c.toNat % 64) = true := by
        simp only [isCont, Bool.and_eq_true, decide_eq_true_eq]
        omega
      rw [if_pos hcont]
      have hval2 : c.toNat / 64 * 64 + c.toNat % 64 = c.toNat := by omega
      simp [hval2, Char.ofNat_toNat]
    · by_cases h3 : c.toNat < 0x10000
      · simp only [utf8EncodeChar, if_neg h1, if_neg h2, if_pos h3, List.cons_append,
          List.nil_append]
        simp only [utf8DecodeLossyAux, utf8Step]
        rw [if_neg (by omega), if_neg (by omega), if_neg (by omega), if_pos (by omega)]
        have hcont : (isCont (0x80 + c.toNat / 64 % 64) &&
            isCont (0x80 + c.toNat % 64)) = true := by
          simp only [isCont, Bool.and_eq_true, decide_eq_true_eq]
          omega
        rw [if_pos hcont]
        have hval2 : c.toNat / 4096 * 4096 + c.toNat / 64 % 64 * 64 + c.toNat % 64 =
            c.toNat := by omega
        simp [hval2, Char.ofNat_toNat]
      · simp only [utf8EncodeChar, if_neg h1, if_neg h2, if_neg h3, List.cons_append,
          List.nil_append]
        simp only [utf8DecodeLossyAux, utf8Step]
        rw [if_neg (by omega), if_neg (by omega), if_neg (by omega), if_neg (by omega),
          if_pos (by omega)]
        have hcont : (isCont (0x80 + c.toNat / 4096 % 64) &&
            isCont (0x80 + c.toNat / 64 % 64) && isCont (0x80 + c.toNat % 64)) = true := by
          simp only [isCont, Bool.and_eq_true, decide_eq_true_eq]
          omega
        rw [if_pos hcont]
        have hval2 : c.toNat / 262144 * 262144 + c.toNat / 4096 % 64 * 4096 +
            c.toNat / 64 % 64 * 64 + c.toNat % 64 = c.toNat := by omega
        simp [hval2, Char.ofNat_toNat]

/-- Every character encodes to at least one byte. -/
theorem utf8EncodeChar_length_pos (c : Char) : 1 ≤ (utf8EncodeChar c).length := by
  unfold utf8EncodeChar
  by_cases h1 : c.toNat < 0x80
  · simp [h1]
  · by_cases h2 : c.toNat < 0x800
    · simp [h1, h2]
    · by_cases h3 : c.toNat < 0x10000 <;> simp [h1, h2, h3]

/-- UTF-8 encoding produces bytes. -/
theorem utf8EncodeChar_lt (c : Char) : ∀ b ∈ utf8EncodeChar c, b < 256 := by
  have hlt := char_toNat_lt c
  intro b hb
  unfold utf8EncodeChar at hb
  by_cases h1 : c.toNat < 0x80
  · rw [if_pos h1] at hb
    simp only [List.mem_cons, List.not_mem_nil, or_false] at hb
    omega
  · rw [if_neg h1] at hb
    by_cases h2 : c.toNat < 0x800
    · rw [if_pos h2] at hb
      simp only [List.mem_cons, List.not_mem_nil, or_false] at hb
      rcases hb with rfl | rfl <;> omega
    · rw [if_neg h2] at hb
      by_cases h3 : c.toNat < 0x10000
      · rw [if_pos h3] at hb
        simp only [List.mem_cons, List.not_mem_nil, or_false] at hb
        rcases hb with rfl | rfl | rfl <;> omega
      · rw [if_neg h3] at hb
        simp only [List.mem_cons, List.not_mem_nil, or_false] at hb
        rcases hb with rfl | rfl | rfl | rfl <;> omega

/-- UTF-8 encoding of a string produces bytes. -/
theorem utf8Encode_lt (s : String) : ∀ b ∈ utf8Encode s, b < 256 := by
  intro b hb
  rcases List.mem_flatMap.mp hb with ⟨c, hc, hbc⟩
  exact utf8EncodeChar_lt c b hbc

/-- A string has at most as many characters as UTF-8 bytes. -/
theorem flatMap_utf8_length_ge (cs : List Char) :
    cs.length ≤ (cs.flatMap utf8EncodeChar).length := by
  induction cs with
  | nil => simp
  | cons c rest ih =>
    rw [List.flatMap_cons, List.length_append, List.length_cons]
    have := utf8EncodeChar_length_pos c
    omega

/-- The decoder inverts the encoder with enough fuel. -/
theorem utf8DecodeLossyAux_flat (cs : List Char) (bs : List Nat) (fuel : Nat) :
    utf8DecodeLossyAux (cs.length + fuel) (cs.flatMap utf8EncodeChar ++ bs) =
      cs ++ utf8DecodeLossyAux fuel bs := by
  induction cs generalizing bs with
  | nil => simp
  | cons c rest ih =>
    rw [List.flatMap_cons, List.append_assoc]
    have hl : (c :: rest).length + fuel = (rest.length + fuel) + 1 := by
      simp [List.length_cons]; omega
    rw [hl, utf8DecodeLossyAux_encode c _ (rest.length + fuel), ih bs]
    rfl

/-- Decoding no bytes yields no characters. -/
theorem utf8DecodeLossyAux_nil (fuel : Nat) : utf8DecodeLossyAux fuel [] = [] := by
  cases fuel <;> rfl

/-- UTF-8 decode inverts UTF-8 encode. -/
theorem utf8_roundtrip (s : String) : utf8DecodeLossy (utf8Encode s) = s.data := by
  unfold utf8DecodeLossy utf8Encode
  have hge := flatMap_utf8_length_ge s.data
  have hsplit : (s.data.flatMap utf8EncodeChar).length =
      s.data.length + ((s.data.flatMap utf8EncodeChar).length - s.data.length) := by
    omega
  rw [hsplit]
  have := utf8DecodeLossyAux_flat s.data []
    ((s.data.flatMap utf8EncodeChar).length - s.data.length)
  rw [List.append_nil] at this
  rw [this, utf8DecodeLossyAux_nil, List.append_nil]

/-- A hex encoding has two characters per byte. -/
theorem hexPairs_length (l : List Nat) :
    (l.flatMap (fun b => [hexDigit (b / 16), hexDigit (b % 16)])).length = 2 * l.length := by
  induction l with
  | nil => rfl
  | cons b rest ih =>
    rw [List.flatMap_cons, List.length_append, ih]
    simp [List.length_cons]
    omega

/-- A nonempty string has a nonempty UTF-8 encoding. -/
theorem utf8Encode_ne_nil (s : String) (h : s ≠ "") : utf8Encode s ≠ [] := by
  intro hc
  apply h
  rcases s with ⟨data⟩
  rcases data with _ | ⟨c, rest⟩
  · rfl
  · exfalso
    unfold utf8Encode at hc
    have hdd : (⟨c :: rest⟩ : String).data = c :: rest := rfl
    rw [hdd, List.flatMap_cons] at hc
    have hlenc : (utf8EncodeChar c ++ rest.flatMap utf8EncodeChar).length = 0 := by
      rw [hc]; rfl
    rw [List.length_append] at hlenc
    have := utf8EncodeChar_length_pos c
    omega

/-- `hexToUtf8String` (at the default ceiling) inverts `utf8ToHex` for
nonempty strings within the inflated-character ceiling. -/
theorem hexToUtf8_utf8ToHex (s : String) (hne : s ≠ "")
    (hlen : (utf8ToHex s).length ≤ 512000) :
    hexToUtf8String (utf8ToHex s) maxInflatedChars = .ok s := by
  have hdata : (utf8ToHex s).data =
      (utf8Encode s).flatMap (fun b => [hexDigit (b / 16), hexDigit (b % 16)]) := rfl
  have hlen2 : (utf8ToHex s).length = 2 * (utf8Encode s).length := by
    show (utf8ToHex s).data.length = _
    rw [hdata, hexPairs_length]
  have hne2 : utf8Encode s ≠ [] := utf8Encode_ne_nil s hne
  have hpos : 0 < (utf8Encode s).length := List.length_pos.mpr hne2
  unfold hexToUtf8String
  rw [if_neg (by simp only [beq_iff_eq]; rw [hlen2]; omega)]
  have hmod : (utf8ToHex s).length % 2 = 0 := by rw [hlen2]; omega
  rw [if_neg (by simp [hmod])]
  rw [if_neg (by
    simp only [Bool.not_eq_true']
    rw [Bool.not_eq_false]
    rw [List.all_eq_true]
    intro c hc
    exact hexChars_all (utf8Encode s) c (hdata ▸ hc))]
  rw [if_neg (by simp only [maxInflatedChars]; omega)]
  rw [hdata, hexPairs_roundtrip _ (utf8Encode_lt s), utf8_roundtrip]

/-- C6 (amended): for every compress/decompress pair that inverts on the hex
encoding of the credential, and every NONEMPTY credential string whose hex
encoding stays within the inflated ceiling (512,000 characters) and whose
compressed form is nonempty and at most 48,000 bytes (so the token stays
within the 64,000-character ceiling), encoding as hex, compressing and
base64url-encoding, then running the three decode stages, reproduces the
credential exactly. -/
theorem token_roundtrip_amended (gzip : String → List Nat)
    (ungzip : List Nat → Option String) (cred : String)
    (hcred : cred ≠ "")
    (hb : ∀ b ∈ gzip (utf8ToHex cred), b < 256)
    (hne : gzip (utf8ToHex cred) ≠ [])
    (hlen : (gzip (utf8ToHex cred)).length ≤ 48000)
    (hhex : (utf8ToHex cred).length ≤ 512000)
    (hinv : ungzip (gzip (utf8ToHex cred)) = some (utf8ToHex cred)) :
    decodeStages ungzip (bytesToB64url (gzip (utf8ToHex cred))) = .ok cred := by
  unfold decodeStages
  rw [b64url_roundtrip _ hb hne hlen]
  show Except.bind (Except.ok (gzip (utf8ToHex cred))) _ = _
  simp only [Except.bind]
  rw [hinv]
  exact hexToUtf8_utf8ToHex cred hcred hhex

/-- Witness for C6 (amended) with the concrete invertible compressor model
and the credential `"a.b"`. -/
theorem token_roundtrip_witness :
    decodeStages ungzipModel (bytesToB64url (gzipModel (utf8ToHex "a.b"))) =
      .ok "a.b" :=
  token_roundtrip_amended gzipModel ungzipModel "a.b" (by decide) (by decide)
    (by decide) (by decide) (by decide) (by decide)

/-- Counterexample to C6 as stated: for the empty credential string the
decode pipeline does not reproduce the input — `hexToUtf8String` rejects the
empty hex string — even though the decompressor inverts the compressor on
it. -/
theorem token_roundtrip_empty_cex :
    ungzipModel (gzipModel (utf8ToHex "")) = some (utf8ToHex "") ∧
    decodeStages ungzipModel (bytesToB64url (gzipModel (utf8ToHex ""))) =
      .error "hex must be non-empty" := by
  constructor <;> decide
